import Mathlib

/-!
# gocodereview: a verification development

A shallow embedding of `gocodereview.go` (a signature-driven grep dispatcher) and
theorems about its corpus resolver, signature loader, search invoker and worker.

Go strings are embedded as Lean `String`s; the library string primitives
(`strings.Index`, `strings.ReplaceAll`, `strings.Split`) are embedded as structural
recursions over the character list, so that every definition evaluates on concrete
inputs.  The filesystem, the shell and the YAML decoder are oracles passed as arguments.
-/

namespace GoCodeReview

/-! ## Go string primitives -/

/-- Scan for the first position at which `sub` is a prefix of the remaining text;
`i` is the offset of the text still to be scanned.  The result is `-1` when `sub`
does not occur. -/
def indexFrom (sub : List Char) : List Char → Nat → Int
  | [], i => if sub.isPrefixOf [] then (i : Int) else -1
  | c :: cs, i => if sub.isPrefixOf (c :: cs) then (i : Int) else indexFrom sub cs (i + 1)

/-- Embedding of `strings.Index(s, substr)`: offset of the first occurrence of `substr` in `s`, or
`-1`.  Offsets are counted in characters; the program only ever tests the sign of the result. -/
def stringsIndex (s substr : String) : Int :=
  indexFrom substr.data s.data 0

/-- Replacement of a non-empty `old`, scanning left to right without overlap.  The
counter is the number of characters of the occurrence just replaced that are still to be
skipped. -/
def replaceScan (old new : List Char) : Nat → List Char → List Char
  | _, [] => []
  | k + 1, _ :: cs => replaceScan old new k cs
  | 0, c :: cs =>
    if old.isPrefixOf (c :: cs) then new ++ replaceScan old new (old.length - 1) cs
    else c :: replaceScan old new 0 cs

/-- Replacement of the empty `old`: `new` is inserted before every character and at the
end. -/
def replaceEmpty (new : List Char) : List Char → List Char
  | [] => new
  | c :: cs => new ++ c :: replaceEmpty new cs

/-- Embedding of `strings.ReplaceAll(s, old, new)`. -/
def stringsReplaceAll (s old new : String) : String :=
  if old.data = [] then String.mk (replaceEmpty new.data s.data)
  else String.mk (replaceScan old.data new.data 0 s.data)

/-- Split a character list at every occurrence of the separator character; `cur` is the
field read so far, in reverse. -/
def splitScan (sep : Char) : List Char → List Char → List String
  | [], cur => [String.mk cur.reverse]
  | c :: cs, cur =>
    if c = sep then String.mk cur.reverse :: splitScan sep cs []
    else splitScan sep cs (c :: cur)

/-- Embedding of `strings.Split(s, ",")`, the only separator the program uses. -/
def stringsSplitComma (s : String) : List String :=
  splitScan ',' s.data []

/-! ## Constants and data model -/

/-- Lines to display before the match. -/
def DefLinesBefore : String := "2"

/-- Lines to display after the match. -/
def DefLinesAfter : String := "2"

/-- Default grep binary. -/
def DefaultGrepBinPath : String := "grep"

/-- One check of a signature file. -/
structure sigCheck where
  Outfile : String
  Regex : List String
  Notes : String
  deriving DecidableEq

/-- One parsed signature file. -/
structure signFileStruct where
  ID : String
  Name : String
  Author : String
  Severity : String
  Checks : List sigCheck
  deriving DecidableEq

/-- Extensions for YAML files. -/
def SIGFILEEXT : List String := [".yml", ".yaml"]

/-! ## Find and findSigFiles -/

/-- Loop of `Find`: `i` is the index of the head of the remaining slice. -/
def findFrom (val : String) : List String → Nat → Int × Bool
  | [], _ => (-1, false)
  | item :: rest, i => if item = val then ((i : Int), true) else findFrom val rest (i + 1)

/-- Embedding of `Find`: index of the first element equal to `val` and `true`, or `(-1, false)`. -/
def Find (slice : List String) (val : String) : Int × Bool :=
  findFrom val slice 0

/-- Inner loop of `findSigFiles`: whether some extension, tried in order, occurs in the
path (`strings.Index(fileToCheck, ext) != -1`, then `break`). -/
def matchesSigExt (fileToCheck : String) : List String → Bool
  | [] => false
  | ext :: exts =>
    if stringsIndex fileToCheck ext ≠ -1 then true else matchesSigExt fileToCheck exts

/-- Outer loop of `findSigFiles`, with the slice built so far. -/
def findSigFilesLoop : List String → List String → List String
  | [], sigFiles => sigFiles
  | fileToCheck :: rest, sigFiles =>
    if matchesSigExt fileToCheck SIGFILEEXT then findSigFilesLoop rest (sigFiles ++ [fileToCheck])
    else findSigFilesLoop rest sigFiles

/-- Embedding of `findSigFiles`. -/
def findSigFiles (filesToParse : List String) : List String :=
  findSigFilesLoop filesToParse []

/-! ## Search invoker -/

/-- Result of running a command through the shell: the combined output and the error
text of the run, if it failed. -/
structure CmdResult where
  out : String
  err : Option String

/-- The loop over the exclude patterns in `execGrepSearch`. -/
def appendExcludes : String → List String → String
  | cmd, [] => cmd
  | cmd, excludePattern :: rest =>
    if excludePattern ≠ "" then appendExcludes (cmd ++ (" --exclude " ++ excludePattern)) rest
    else appendExcludes cmd rest

/-- The command template of `execGrepSearch`. -/
def grepTemplate : String :=
  "\x7bgrepBin\x7d --color=always -E -i -r -n -A \x7bDefLinesAfter\x7d -B \x7bDefLinesBefore\x7d \"\x7bregex\x7d\" \"\x7bfolderToScan\x7d\""

/-- The command string `execGrepSearch` builds and hands to `execCmd`. -/
def grepCommand (grepBin folderToScan regex : String) (excludePatterns : List String) : String :=
  let cmd := grepTemplate
  let cmd := stringsReplaceAll cmd "\x7bgrepBin\x7d" grepBin
  let cmd := stringsReplaceAll cmd "\x7bregex\x7d" regex
  let cmd := stringsReplaceAll cmd "\x7bfolderToScan\x7d" folderToScan
  let cmd := stringsReplaceAll cmd "\x7bDefLinesAfter\x7d" DefLinesAfter
  let cmd := stringsReplaceAll cmd "\x7bDefLinesBefore\x7d" DefLinesBefore
  appendExcludes cmd excludePatterns

/-- Embedding of `execCmd`: the output text, a newline, and the error text (empty when the
command succeeded). -/
def execCmd (sh : String → CmdResult) (cmdToExec : String) : String :=
  let r := sh cmdToExec
  let outStr := r.out
  let errStr := match r.err with
    | none => ""
    | some e => e
  outStr ++ "\n" ++ errStr

/-- Embedding of `execGrepSearch`. -/
def execGrepSearch (sh : String → CmdResult) (grepBin folderToScan regex : String)
    (excludePatterns : List String) : String :=
  execCmd sh (grepCommand grepBin folderToScan regex excludePatterns)

/-! ## Worker and result sink -/

/-- One call of `ioutil.WriteFile`. -/
structure WriteCall where
  name : String
  data : String
  perm : Nat
  deriving DecidableEq

/-- One file of the filesystem state: its content and its permission bits. -/
structure FileEntry where
  data : String
  perm : Nat
  deriving DecidableEq

/-- The files of the machine, keyed by the file itself: two paths that name the same file
(`out.txt` and `./out.txt`) share one key. -/
abbrev Files := String → Option FileEntry

/-- The filesystem seen by the workers: the files, and the log of the `WriteFile` calls
issued so far. -/
structure World where
  files : Files
  writes : List WriteCall

/-- The operating system around a worker.  `sh` is `/bin/bash -c`: the result of a command
and the files it leaves behind.  `canon` gives the file a path names.  `written` is how the
system answers `WriteFile(name, data)`: `none` when the file cannot be opened, and otherwise
the bytes that reached the file, which are `data` when the call succeeds.  `umask` is the
mask applied to the permissions of a created file. -/
structure Os where
  sh : Files → String → CmdResult × Files
  canon : Files → String → String
  written : Files → String → String → Option String
  umask : Nat

/-- Embedding of `ioutil.WriteFile(name, data, perm)`, whose error result the worker discards:
the call is logged; when the file cannot be opened nothing changes; otherwise the file the
path names is created with `perm` less the umask when absent, truncated (its permissions
kept) when present, and holds what was written. -/
def writeFile (os : Os) (w : World) (name data : String) (perm : Nat) : World :=
  let file := os.canon w.files name
  let files : Files :=
    match os.written w.files name data with
    | none => w.files
    | some bytes => fun p =>
      if p = file then
        some ⟨bytes, match w.files file with
          | some e => e.perm
          | none => perm - (perm &&& os.umask)⟩
      else w.files p
  ⟨files, w.writes ++ [⟨name, data, perm⟩]⟩

/-- The loop over the regexes of one check: `cmdsOutput += search(regex) + "\n"`. -/
def regexLoop (search : String → String) : List String → String → String
  | [], cmdsOutput => cmdsOutput
  | regex :: rest, cmdsOutput => regexLoop search rest (cmdsOutput ++ (search regex ++ "\n"))

/-- The result buffer `cmdsOutput` the worker builds for one check. -/
def checkBuffer (sh : String → CmdResult) (grepBin folderToScan : String)
    (excludePatterns : List String) (myCheck : sigCheck) : String :=
  let cmdsOutput :=
    regexLoop (fun regex => execGrepSearch sh grepBin folderToScan regex excludePatterns)
      myCheck.Regex ""
  let notes := myCheck.Notes
  if notes ≠ "" then cmdsOutput ++ ("\n[!] " ++ notes) else cmdsOutput

/-- Embedding of `execCmd` together with the effect of the command: the text it returns and the
files the shell leaves behind. -/
def execCmdOn (os : Os) (files : Files) (cmdToExec : String) : String × Files :=
  (execCmd (fun cmd => (os.sh files cmd).1) cmdToExec, (os.sh files cmdToExec).2)

/-- Embedding of `execGrepSearch` together with the effect of the command. -/
def execGrepSearchOn (os : Os) (files : Files) (grepBin folderToScan regex : String)
    (excludePatterns : List String) : String × Files :=
  execCmdOn os files (grepCommand grepBin folderToScan regex excludePatterns)

/-- The loop over the regexes of one check as the worker runs it: every search is a shell
command, run on the files the previous searches left. -/
def regexRun (os : Os) (grepBin folderToScan : String) (excludePatterns : List String) :
    List String → String → Files → String × Files
  | [], cmdsOutput, files => (cmdsOutput, files)
  | regex :: rest, cmdsOutput, files =>
    regexRun os grepBin folderToScan excludePatterns rest
      (cmdsOutput ++
        ((execGrepSearchOn os files grepBin folderToScan regex excludePatterns).1 ++ "\n"))
      (execGrepSearchOn os files grepBin folderToScan regex excludePatterns).2

/-- The result buffer `cmdsOutput` of one check, and the files its searches leave. -/
def checkRun (os : Os) (grepBin folderToScan : String) (excludePatterns : List String)
    (files : Files) (myCheck : sigCheck) : String × Files :=
  let r := regexRun os grepBin folderToScan excludePatterns myCheck.Regex "" files
  let notes := myCheck.Notes
  if notes ≠ "" then (r.1 ++ ("\n[!] " ++ notes), r.2) else r

/-- Body of the loop over the checks in `worker`: run the searches and build the buffer,
then store it when an outfile is declared. -/
def processCheck (os : Os) (grepBin folderToScan : String)
    (excludePatterns : List String) (w : World) (myCheck : sigCheck) : World :=
  let r := checkRun os grepBin folderToScan excludePatterns w.files myCheck
  let cmdsOutput := r.1
  let outfile := myCheck.Outfile
  if outfile ≠ "" then
    let contentToWrite := cmdsOutput ++ "\n"
    writeFile os ⟨r.2, w.writes⟩ outfile contentToWrite 0o644
  else ⟨r.2, w.writes⟩

/-- The loop over the checks of one signature. -/
def processChecks (os : Os) (grepBin folderToScan : String)
    (excludePatterns : List String) : World → List sigCheck → World
  | w, [] => w
  | w, myCheck :: rest =>
    processChecks os grepBin folderToScan excludePatterns
      (processCheck os grepBin folderToScan excludePatterns w myCheck) rest

/-! ## Signature table and loader -/

/-- The signature table `map[string]signFileStruct`, as an association list with unique
keys. -/
abbrev SigTable := List (String × signFileStruct)

/-- Map assignment `t[k] = v`. -/
def tableSet : SigTable → String → signFileStruct → SigTable
  | [], k, v => [(k, v)]
  | (k0, v0) :: rest, k, v => if k0 = k then (k, v) :: rest else (k0, v0) :: tableSet rest k v

/-- Lookup of a key, `none` when the key is absent. -/
def tableGet? : SigTable → String → Option signFileStruct
  | [], _ => none
  | (k0, v0) :: rest, k => if k0 = k then some v0 else tableGet? rest k

/-- Map read `t[k]`: the zero value when the key is absent. -/
def tableGet (t : SigTable) (k : String) : signFileStruct :=
  match tableGet? t k with
  | some v => v
  | none => ⟨"", "", "", "", []⟩

/-- The keys of the table. -/
def tableKeys (t : SigTable) : List String :=
  t.map Prod.fst

/-- What one worker does with the identifiers it receives from the channel, in order. -/
def workerRun (sigFileContents : SigTable) (os : Os)
    (grepBin folderToScan : String) (excludePatterns : List String) :
    World → List String → World
  | w, [] => w
  | w, sigFile :: rest =>
    let sigFileContent := tableGet sigFileContents sigFile
    let myChecks := sigFileContent.Checks
    workerRun sigFileContents os grepBin folderToScan excludePatterns
      (processChecks os grepBin folderToScan excludePatterns w myChecks) rest

/-- The bytes `parseSigFile` hands to the decoder: the content read, or nothing when the
read failed (the failure is only logged). -/
def readOrEmpty (rd : String → Option String) (sigFile : String) : String :=
  match rd sigFile with
  | some yamlFile => yamlFile
  | none => ""

/-- Embedding of `parseSigFile`; `rd` is `ioutil.ReadFile` and `unm` is `yaml.Unmarshal`, each
returning a value or failing.  `none` is the fatal exit on a decoding error. -/
def parseSigFile (rd : String → Option String) (unm : String → Option signFileStruct)
    (sigFile : String) : Option signFileStruct :=
  let yamlFile := readOrEmpty rd sigFile
  match unm yamlFile with
  | none => none
  | some sigFileContent => some sigFileContent

/-- The loop of `main` filling the signature table; `none` when a parse exits the run. -/
def loadSigFiles (rd : String → Option String) (unm : String → Option signFileStruct) :
    List String → SigTable → Option SigTable
  | [], t => some t
  | sigFile :: rest, t =>
    match parseSigFile rd unm sigFile with
    | none => none
    | some c => loadSigFiles rd unm rest (tableSet t sigFile c)

/-! ## Corpus resolver -/

/-- What `os.Stat` reports about an existing path. -/
inductive FileKind where
  | dir
  | regular
  | other
  deriving DecidableEq

/-- The filesystem consulted by `main`: `filepath.Glob`, `os.Stat` (`none` is an error) and
the paths `filepath.Walk` visits below a root, in visiting order. -/
structure FsOracle where
  glob : String → List String
  stat : String → Option FileKind
  walk : String → List String

/-- The callback `main` passes to `filepath.Walk`.  A failing `os.Stat` leaves `fi` nil and
the call `fi.Mode()` stops the program (`none`). -/
def walkVisit (fs : FsOracle) (filesToParse : List String) (path : String) :
    Option (List String) :=
  match fs.stat path with
  | none => none
  | some k =>
    if k = FileKind.regular then
      if (Find filesToParse path).2 then some filesToParse else some (filesToParse ++ [path])
    else some filesToParse

/-- The walk over the visited paths. -/
def walkLoop (fs : FsOracle) : List String → List String → Option (List String)
  | [], filesToParse => some filesToParse
  | path :: rest, filesToParse =>
    match walkVisit fs filesToParse path with
    | none => none
    | some acc => walkLoop fs rest acc

/-- The loop appending the glob matches. -/
def globLoop : List String → List String → List String
  | [], filesToParse => filesToParse
  | matchingPath :: rest, filesToParse => globLoop rest (filesToParse ++ [matchingPath])

/-- Body of the specifier loop of `main`; `none` is the fatal exit on a missing path (or
the stop inside the walk). -/
def resolveStep (fs : FsOracle) (filesToParse : List String) (pathToCheck : String) :
    Option (List String) :=
  if stringsIndex pathToCheck "*" ≥ 0 then
    some (globLoop (fs.glob pathToCheck) filesToParse)
  else
    match fs.stat pathToCheck with
    | none => none
    | some FileKind.dir => walkLoop fs (fs.walk pathToCheck) filesToParse
    | some FileKind.regular =>
      if (Find filesToParse pathToCheck).2 then some filesToParse
      else some (filesToParse ++ [pathToCheck])
    | some FileKind.other => some filesToParse

/-- The specifier loop of `main`. -/
def resolveLoop (fs : FsOracle) : List String → List String → Option (List String)
  | [], filesToParse => some filesToParse
  | pathToCheck :: rest, filesToParse =>
    match resolveStep fs filesToParse pathToCheck with
    | none => none
    | some acc => resolveLoop fs rest acc

/-- The corpus list `filesToParse` that `main` resolves from the `-s` argument. -/
def resolveCorpus (fs : FsOracle) (pathsWithSigFiles : String) : Option (List String) :=
  resolveLoop fs (stringsSplitComma pathsWithSigFiles) []

/-! ## main -/

/-- The command-line arguments of the program. -/
structure Config where
  pathsWithSigFiles : String
  maxThreads : Int
  grepBin : String
  exclude : String
  folderToScan : String

/-- The exclude patterns `main` hands to every worker: `strings.Split(exclude, ",")`. -/
def excludePatternsOf (cfg : Config) : List String :=
  stringsSplitComma cfg.exclude

/-- How a run of `main` ends: `fatal` is a stop during setup (a `log.Fatalf`, or the nil
dereference inside the walk callback), `deadlock` a send that no worker can receive,
`finished` the return after `wg.Wait()`. -/
inductive Exit where
  | fatal
  | deadlock
  | finished
  deriving DecidableEq

/-- What `main` itself did in a run: the signature table it built, the number of worker
goroutines it launched, the identifiers it sent on the channel, and how it ended. -/
structure Run where
  table : SigTable
  workers : Nat
  sent : List String
  exit : Exit
  deriving DecidableEq

/-- Embedding of `main`.  Every fatal exit happens before the first goroutine is launched.
With no worker to receive, the first send on the unbuffered channel never completes. -/
def main (fs : FsOracle) (rd : String → Option String) (unm : String → Option signFileStruct)
    (cfg : Config) : Run :=
  if cfg.folderToScan = "" then ⟨[], 0, [], Exit.fatal⟩
  else if fs.stat cfg.folderToScan = none then ⟨[], 0, [], Exit.fatal⟩
  else if cfg.pathsWithSigFiles = "" then ⟨[], 0, [], Exit.fatal⟩
  else
    match resolveCorpus fs cfg.pathsWithSigFiles with
    | none => ⟨[], 0, [], Exit.fatal⟩
    | some filesToParse =>
      let sigFiles := findSigFiles filesToParse
      match loadSigFiles rd unm sigFiles [] with
      | none => ⟨[], 0, [], Exit.fatal⟩
      | some sigFileContents =>
        let workers := cfg.maxThreads.toNat
        if workers = 0 ∧ sigFiles ≠ [] then ⟨sigFileContents, workers, [], Exit.deadlock⟩
        else ⟨sigFileContents, workers, sigFiles, Exit.finished⟩

/-! ## Specification-side definitions and sample inputs -/

/-- The buffer as the specification words it: the outputs of the patterns, each followed
by a newline, concatenated in list order. -/
def joinedOutputs (search : String → String) : List String → String
  | [] => ""
  | p :: ps => search p ++ "\n" ++ joinedOutputs search ps

/-- A filesystem state holding one file. -/
def oneFileWorld : World :=
  ⟨fun p => if p = "out.txt" then some ⟨"old\n", 0o600⟩ else none, []⟩

/-- A system whose shell echoes the command and leaves the files alone, on which every write
succeeds and every path names itself. -/
def quietOs : Os :=
  ⟨fun files cmd => (⟨cmd, none⟩, files), fun _ p => p, fun _ _ data => some data, 0o022⟩

/-- A system on which `src` holds no line with an `a`, so that `grep` prints nothing and
ends with status 1; its shell obeys the redirection in the one command below and creates
`pwned.txt`; the directory `nodir` does not exist, so `nodir/out.txt` cannot be opened; and
a leading `./` does not change the file a path names. -/
def demoOs : Os :=
  ⟨fun files cmd =>
      if cmd = "grep --color=always -E -i -r -n -A 2 -B 2 \"a\" > \"pwned.txt\" \"src\"" then
        (⟨"", some "exit status 1"⟩, fun p =>
          if p = "pwned.txt" then
            some ⟨"", match files "pwned.txt" with
              | some e => e.perm
              | none => 0o644⟩
          else files p)
      else (⟨"", some "exit status 1"⟩, files),
    fun _ p =>
      match p.data with
      | '.' :: '/' :: rest => String.mk rest
      | _ => p,
    fun _ name data => if name = "nodir/out.txt" then none else some data,
    0o022⟩

/-- A filesystem with a signature directory `sigs` holding the files `a.yml` and `b.yml`,
the stale copy `a.yml.bak` and the subdirectory `archive`, a second directory `rules`
holding `ok.yml` and `bad.yml`, and the scan target `src`. -/
def demoFs : FsOracle :=
  ⟨fun pattern =>
      if pattern = "sigs/*.yml" then ["sigs/a.yml", "sigs/b.yml"]
      else if pattern = "sigs/a*" then ["sigs/a.yml", "sigs/a.yml.bak", "sigs/archive"]
      else [],
    fun path =>
      if path = "sigs" ∨ path = "sigs/archive" ∨ path = "rules" ∨ path = "src" then
        some FileKind.dir
      else if path = "sigs/a.yml" ∨ path = "sigs/b.yml" ∨ path = "sigs/a.yml.bak" ∨
          path = "rules/ok.yml" ∨ path = "rules/bad.yml" then
        some FileKind.regular
      else none,
    fun root =>
      if root = "sigs" then ["sigs", "sigs/a.yml", "sigs/a.yml.bak", "sigs/archive", "sigs/b.yml"]
      else if root = "sigs/archive" then ["sigs/archive"]
      else if root = "rules" then ["rules", "rules/bad.yml", "rules/ok.yml"]
      else []⟩

/-- A reader for `demoFs`: `sigs/b.yml` is unreadable, `rules/bad.yml` holds a document
indented with a tab, the other signature files hold the document `id: a`. -/
def demoRead : String → Option String :=
  fun path =>
    if path = "sigs/a.yml" ∨ path = "rules/ok.yml" then some "id: a"
    else if path = "rules/bad.yml" then some "\tid: a"
    else none

/-- A decoder that accepts the empty document and the document `id: a`, and rejects
everything else. -/
def demoUnmarshal : String → Option signFileStruct :=
  fun doc =>
    if doc = "" then some ⟨"", "", "", "", []⟩
    else if doc = "id: a" then some ⟨"a", "", "", "", []⟩
    else none

/-- What the literal-file and directory branches maintain: no path twice, and every entry
a regular file according to `os.Stat`. -/
def CleanCorpus (fs : FsOracle) (filesToParse : List String) : Prop :=
  filesToParse.Nodup ∧ ∀ path ∈ filesToParse, fs.stat path = some FileKind.regular

/-- The suffix test the specification words: `strings.HasSuffix(s, suffix)`. -/
def stringsHasSuffix (s suffix : String) : Bool :=
  suffix.data.isSuffixOf s.data

/-- The exclude arguments as the specification words them: one `--exclude` per non-empty
exclude pattern, in list order. -/
def claimedExcludes : List String → String
  | [] => ""
  | e :: es => (if e = "" then "" else " --exclude " ++ e) ++ claimedExcludes es

/-- The command string as the specification words it: the binary, the fixed flags, the
quoted pattern and target, and one `--exclude` per non-empty exclude pattern. -/
def claimedCommand (grepBin pattern target : String) (excludePatterns : List String) : String :=
  grepBin ++ " --color=always -E -i -r -n -A 2 -B 2 \"" ++ pattern ++ "\" \"" ++ target ++ "\"" ++
    claimedExcludes excludePatterns

/-- No occurrence of `old` starts inside `s` when `s` is followed by `t`. -/
def OccFree (old s t : List Char) : Prop :=
  ∀ u v : List Char, s = u ++ v → v ≠ [] → ¬ old <+: v ++ t

/-- The placeholder `{grepBin}`. -/
def tG : List Char := "\x7bgrepBin\x7d".data

/-- The placeholder `{regex}`. -/
def tR : List Char := "\x7bregex\x7d".data

/-- The placeholder `{folderToScan}`. -/
def tF : List Char := "\x7bfolderToScan\x7d".data

/-- The placeholder `{DefLinesAfter}`. -/
def tA : List Char := "\x7bDefLinesAfter\x7d".data

/-- The placeholder `{DefLinesBefore}`. -/
def tB : List Char := "\x7bDefLinesBefore\x7d".data

/-- The template text between `{grepBin}` and `{regex}`. -/
def kFlags : List Char :=
  " --color=always -E -i -r -n -A \x7bDefLinesAfter\x7d -B \x7bDefLinesBefore\x7d \"".data

/-- The template text between `{grepBin}` and `{DefLinesAfter}`. -/
def kHead : List Char := " --color=always -E -i -r -n -A ".data

/-- The template text between `{DefLinesAfter}` and `{regex}`. -/
def kBefore : List Char := " -B \x7bDefLinesBefore\x7d \"".data

/-- The text between the binary and `{DefLinesBefore}` once `{DefLinesAfter}` is filled in. -/
def kHead2 : List Char := " --color=always -E -i -r -n -A 2 -B ".data

/-- The template text between `{DefLinesBefore}` and `{regex}`. -/
def kOpen : List Char := " \"".data

/-- The template text between `{regex}` and `{folderToScan}`. -/
def kMid : List Char := "\" \"".data

/-- The template text after `{folderToScan}`. -/
def kClose : List Char := "\"".data

/-! ## Order of the result buffer -/

theorem regexLoop_eq (search : String → String) (ps : List String) (acc : String) :
    regexLoop search ps acc = acc ++ joinedOutputs search ps := by
  induction ps generalizing acc with
  | nil => simp [regexLoop, joinedOutputs]
  | cons p ps ih =>
    simp only [regexLoop, joinedOutputs]
    rw [ih, String.append_assoc]

/-- C2: the result buffer the worker builds for a check is the search outputs of its patterns,
each followed by a newline, in list order, followed by the notes block exactly when the notes
are non-empty; for two patterns and no notes it is
`search p1 ++ "\n" ++ search p2 ++ "\n"`. -/
theorem checkBuffer_order (sh : String → CmdResult) (grepBin folderToScan : String)
    (excludePatterns : List String) (myCheck : sigCheck) :
    checkBuffer sh grepBin folderToScan excludePatterns myCheck =
        joinedOutputs (fun p => execGrepSearch sh grepBin folderToScan p excludePatterns)
          myCheck.Regex ++ (if myCheck.Notes = "" then "" else "\n[!] " ++ myCheck.Notes) ∧
    ∀ outfile p1 p2 : String,
      checkBuffer sh grepBin folderToScan excludePatterns ⟨outfile, [p1, p2], ""⟩ =
        execGrepSearch sh grepBin folderToScan p1 excludePatterns ++ "\n" ++
          execGrepSearch sh grepBin folderToScan p2 excludePatterns ++ "\n" := by
  refine ⟨?_, ?_⟩
  · by_cases h : myCheck.Notes = ""
    · simp [checkBuffer, regexLoop_eq, h]
    · simp [checkBuffer, regexLoop_eq, h]
  · intro outfile p1 p2
    simp [checkBuffer, regexLoop, String.append_assoc]

/-! ## Result sink -/

theorem regexRun_files_of_quiet (os : Os) (grepBin folderToScan : String)
    (excludePatterns : List String) (hq : ∀ (files : Files) (cmd : String), (os.sh files cmd).2 = files)
    (ps : List String) (cmdsOutput : String) (files : Files) :
    (regexRun os grepBin folderToScan excludePatterns ps cmdsOutput files).2 = files := by
  induction ps generalizing cmdsOutput files with
  | nil => simp [regexRun]
  | cons p ps ih =>
    simp only [regexRun]
    rw [ih]
    simp [execGrepSearchOn, execCmdOn, hq]

theorem regexRun_output_of_pure (os : Os) (sh : String → CmdResult) (grepBin folderToScan : String)
    (excludePatterns : List String) (hp : ∀ (files : Files) (cmd : String), (os.sh files cmd).1 = sh cmd)
    (ps : List String) (cmdsOutput : String) (files : Files) :
    (regexRun os grepBin folderToScan excludePatterns ps cmdsOutput files).1 =
      regexLoop (fun regex => execGrepSearch sh grepBin folderToScan regex excludePatterns)
        ps cmdsOutput := by
  induction ps generalizing cmdsOutput files with
  | nil => simp [regexRun, regexLoop]
  | cons p ps ih =>
    simp only [regexRun, regexLoop]
    rw [ih]
    have hf : (fun cmd => (os.sh files cmd).1) = sh := funext (hp files)
    simp [execGrepSearchOn, execCmdOn, execGrepSearch, hf]

/-- When the output of the shell does not depend on the files, the buffer the worker builds
is the buffer of `checkBuffer` for that output function. -/
theorem checkRun_buffer_of_pure (os : Os) (sh : String → CmdResult) (grepBin folderToScan : String)
    (excludePatterns : List String) (hp : ∀ (files : Files) (cmd : String), (os.sh files cmd).1 = sh cmd)
    (files : Files) (myCheck : sigCheck) :
    (checkRun os grepBin folderToScan excludePatterns files myCheck).1 =
      checkBuffer sh grepBin folderToScan excludePatterns myCheck := by
  by_cases h : myCheck.Notes = ""
  · simp [checkRun, checkBuffer, h, regexRun_output_of_pure os sh _ _ _ hp]
  · simp [checkRun, checkBuffer, h, regexRun_output_of_pure os sh _ _ _ hp]

theorem checkRun_files (os : Os) (grepBin folderToScan : String)
    (excludePatterns : List String) (files : Files) (myCheck : sigCheck) :
    (checkRun os grepBin folderToScan excludePatterns files myCheck).2 =
      (regexRun os grepBin folderToScan excludePatterns myCheck.Regex "" files).2 := by
  by_cases h : myCheck.Notes = ""
  · simp [checkRun, h]
  · simp [checkRun, h]

/-- C4, as the code has it: for a check whose outfile is empty the worker issues no `WriteFile`
call, and the files after the check are exactly the files its search commands left; when the
shell leaves the files alone, the filesystem state after the check is the state before it. -/
theorem processCheck_no_outfile (os : Os) (grepBin folderToScan : String)
    (excludePatterns : List String) (w : World) (myCheck : sigCheck)
    (h : myCheck.Outfile = "") :
    (processCheck os grepBin folderToScan excludePatterns w myCheck).writes = w.writes ∧
    (processCheck os grepBin folderToScan excludePatterns w myCheck).files =
      (regexRun os grepBin folderToScan excludePatterns myCheck.Regex "" w.files).2 ∧
    ((∀ (files : Files) (cmd : String), (os.sh files cmd).2 = files) →
      processCheck os grepBin folderToScan excludePatterns w myCheck = w) := by
  refine ⟨?_, ?_, ?_⟩
  · simp [processCheck, h]
  · simp [processCheck, h, checkRun_files]
  · intro hq
    have hf : (checkRun os grepBin folderToScan excludePatterns w.files myCheck).2 = w.files := by
      rw [checkRun_files, regexRun_files_of_quiet os _ _ _ hq]
    simp [processCheck, h, hf]

theorem processCheck_no_outfile_witness :
    (processCheck quietOs "grep" "src" ["*.js"] oneFileWorld
        ⟨"", ["TODO", "FIXME"], "look"⟩).writes = oneFileWorld.writes ∧
    processCheck quietOs "grep" "src" ["*.js"] oneFileWorld ⟨"", ["TODO", "FIXME"], "look"⟩ =
      oneFileWorld :=
  ⟨(processCheck_no_outfile quietOs "grep" "src" ["*.js"] oneFileWorld
      ⟨"", ["TODO", "FIXME"], "look"⟩ rfl).1,
    (processCheck_no_outfile quietOs "grep" "src" ["*.js"] oneFileWorld
      ⟨"", ["TODO", "FIXME"], "look"⟩ rfl).2.2 (fun _ _ => rfl)⟩

/-- C4, as stated, fails: for the pattern `a" > "pwned.txt` the command handed to the shell
redirects the output of `grep`, and a check with an empty outfile leaves the file
`pwned.txt`, which did not exist before. -/
theorem processCheck_no_outfile_changes_files :
    grepCommand "grep" "src" "a\" > \"pwned.txt" [] =
        "grep --color=always -E -i -r -n -A 2 -B 2 \"a\" > \"pwned.txt\" \"src\"" ∧
    oneFileWorld.files "pwned.txt" = none ∧
    (processCheck demoOs "grep" "src" [] oneFileWorld
        ⟨"", ["a\" > \"pwned.txt"], ""⟩).files "pwned.txt" = some ⟨"", 0o644⟩ ∧
    (processCheck demoOs "grep" "src" [] oneFileWorld
        ⟨"", ["a\" > \"pwned.txt"], ""⟩).writes = [] := by
  decide

/-- C5, as the code has it: for a check with a non-empty outfile the worker issues exactly one
`WriteFile` call, after the searches, with that path, mode 0644 and the result buffer plus
one newline as data; when the call succeeds the file the path names holds exactly that data,
whatever it held before; and every other file is as the search commands left it. -/
theorem processCheck_outfile (os : Os) (grepBin folderToScan : String)
    (excludePatterns : List String) (w : World) (myCheck : sigCheck)
    (h : myCheck.Outfile ≠ "") :
    (processCheck os grepBin folderToScan excludePatterns w myCheck).writes =
        w.writes ++ [⟨myCheck.Outfile,
          (checkRun os grepBin folderToScan excludePatterns w.files myCheck).1 ++ "\n", 0o644⟩] ∧
    (os.written (checkRun os grepBin folderToScan excludePatterns w.files myCheck).2
          myCheck.Outfile
          ((checkRun os grepBin folderToScan excludePatterns w.files myCheck).1 ++ "\n") =
        some ((checkRun os grepBin folderToScan excludePatterns w.files myCheck).1 ++ "\n") →
      ((processCheck os grepBin folderToScan excludePatterns w myCheck).files
          (os.canon (checkRun os grepBin folderToScan excludePatterns w.files myCheck).2
            myCheck.Outfile)).map FileEntry.data =
        some ((checkRun os grepBin folderToScan excludePatterns w.files myCheck).1 ++ "\n")) ∧
    ∀ file : String,
      file ≠ os.canon (checkRun os grepBin folderToScan excludePatterns w.files myCheck).2
        myCheck.Outfile →
      (processCheck os grepBin folderToScan excludePatterns w myCheck).files file =
        (checkRun os grepBin folderToScan excludePatterns w.files myCheck).2 file := by
  refine ⟨?_, ?_, ?_⟩
  · simp [processCheck, h, writeFile]
  · intro hok
    simp [processCheck, h, writeFile, hok]
  · intro file hfile
    cases hw : os.written (checkRun os grepBin folderToScan excludePatterns w.files myCheck).2
        myCheck.Outfile
        ((checkRun os grepBin folderToScan excludePatterns w.files myCheck).1 ++ "\n") with
    | none => simp [processCheck, h, writeFile, hw]
    | some bytes => simp [processCheck, h, writeFile, hw, hfile]

theorem processCheck_outfile_witness :
    "./out.txt" ≠ "" ∧
    (processCheck demoOs "grep" "src" [] oneFileWorld ⟨"./out.txt", ["TODO"], "look"⟩).writes =
        oneFileWorld.writes ++ [⟨"./out.txt",
          (checkRun demoOs "grep" "src" [] oneFileWorld.files
            ⟨"./out.txt", ["TODO"], "look"⟩).1 ++ "\n", 0o644⟩] ∧
    ((processCheck demoOs "grep" "src" [] oneFileWorld ⟨"./out.txt", ["TODO"], "look"⟩).files
        (demoOs.canon (checkRun demoOs "grep" "src" [] oneFileWorld.files
          ⟨"./out.txt", ["TODO"], "look"⟩).2 "./out.txt")).map FileEntry.data =
      some ((checkRun demoOs "grep" "src" [] oneFileWorld.files
        ⟨"./out.txt", ["TODO"], "look"⟩).1 ++ "\n") ∧
    (processCheck demoOs "grep" "src" [] oneFileWorld ⟨"./out.txt", ["TODO"], "look"⟩).files
        "notes.md" =
      (checkRun demoOs "grep" "src" [] oneFileWorld.files
        ⟨"./out.txt", ["TODO"], "look"⟩).2 "notes.md" :=
  ⟨by decide,
    (processCheck_outfile demoOs "grep" "src" [] oneFileWorld ⟨"./out.txt", ["TODO"], "look"⟩
      (by decide)).1,
    (processCheck_outfile demoOs "grep" "src" [] oneFileWorld ⟨"./out.txt", ["TODO"], "look"⟩
      (by decide)).2.1 (by decide),
    (processCheck_outfile demoOs "grep" "src" [] oneFileWorld ⟨"./out.txt", ["TODO"], "look"⟩
      (by decide)).2.2 "notes.md" (by decide)⟩

/-- The run of the witness above, evaluated: the write to `./out.txt` replaces the content of
the file `out.txt` and keeps its permissions. -/
theorem processCheck_outfile_replaces_alias :
    oneFileWorld.files "out.txt" = some ⟨"old\n", 0o600⟩ ∧
    (processCheck demoOs "grep" "src" [] oneFileWorld ⟨"./out.txt", ["TODO"], "look"⟩).files
        "out.txt" = some ⟨"\nexit status 1\n\n[!] look\n", 0o600⟩ := by
  decide

/-- C5, as stated, fails: when the directory of the outfile does not exist the one write is
issued and the path holds nothing afterwards; and for the pattern `a" > "pwned.txt` the check
leaves the file `pwned.txt` besides its outfile. -/
theorem processCheck_outfile_not_as_stated :
    (processCheck demoOs "grep" "src" [] oneFileWorld ⟨"nodir/out.txt", [], "look"⟩).writes =
        [⟨"nodir/out.txt", "\n[!] look\n", 0o644⟩] ∧
    (processCheck demoOs "grep" "src" [] oneFileWorld ⟨"nodir/out.txt", [], "look"⟩).files
        "nodir/out.txt" = none ∧
    oneFileWorld.files "pwned.txt" = none ∧
    (processCheck demoOs "grep" "src" [] oneFileWorld
        ⟨"report.txt", ["a\" > \"pwned.txt"], ""⟩).files "pwned.txt" = some ⟨"", 0o644⟩ ∧
    (processCheck demoOs "grep" "src" [] oneFileWorld
        ⟨"report.txt", ["a\" > \"pwned.txt"], ""⟩).files "report.txt" =
      some ⟨"\nexit status 1\n\n", 0o644⟩ := by
  decide

/-! ## Signature loader -/

theorem tableGet?_tableSet (t : SigTable) (k : String) (v : signFileStruct) (k1 : String) :
    tableGet? (tableSet t k v) k1 = if k = k1 then some v else tableGet? t k1 := by
  induction t with
  | nil => simp [tableSet, tableGet?]
  | cons e rest ih =>
    obtain ⟨k0, v0⟩ := e
    by_cases h0 : k0 = k
    · subst h0
      by_cases h1 : k0 = k1
      · simp [tableSet, tableGet?, h1]
      · simp [tableSet, tableGet?, h1]
    · by_cases h1 : k0 = k1
      · subst h1
        simp [tableSet, tableGet?, h0, Ne.symm h0]
      · simp [tableSet, tableGet?, h0, h1, ih]

theorem loadSigFiles_none_iff (rd : String → Option String)
    (unm : String → Option signFileStruct) (sigFiles : List String) (t : SigTable) :
    loadSigFiles rd unm sigFiles t = none ↔
      ∃ f ∈ sigFiles, unm (readOrEmpty rd f) = none := by
  induction sigFiles generalizing t with
  | nil => simp [loadSigFiles]
  | cons f rest ih =>
    cases hu : unm (readOrEmpty rd f) with
    | none => simp [loadSigFiles, parseSigFile, hu]
    | some c => simp [loadSigFiles, parseSigFile, hu, ih]

theorem loadSigFiles_get (rd : String → Option String)
    (unm : String → Option signFileStruct) (sigFiles : List String) (t0 t : SigTable)
    (h : loadSigFiles rd unm sigFiles t0 = some t) (k : String) :
    tableGet? t k = if k ∈ sigFiles then unm (readOrEmpty rd k) else tableGet? t0 k := by
  induction sigFiles generalizing t0 with
  | nil =>
    simp [loadSigFiles] at h
    simp [h]
  | cons f rest ih =>
    cases hu : unm (readOrEmpty rd f) with
    | none => simp [loadSigFiles, parseSigFile, hu] at h
    | some c =>
      simp only [loadSigFiles, parseSigFile, hu] at h
      rw [ih _ h, tableGet?_tableSet]
      by_cases hk : k ∈ rest
      · simp [hk]
      · by_cases hf : f = k
        · subst hf
          simp [hk, hu]
        · simp [hk, hf, Ne.symm hf]

/-- C3: loading the signature table exits the run exactly when decoding fails for some
signature file; a failed read alone does not, the decoder is then applied to empty content;
on success the table holds, for every signature file, what the decoder returned for it; and
when loading exits, `main` ends fatally having launched no worker and sent nothing. -/
theorem load_abort_iff_unmarshal_fails (rd : String → Option String)
    (unm : String → Option signFileStruct) (sigFiles : List String) :
    (loadSigFiles rd unm sigFiles [] = none ↔
      ∃ f ∈ sigFiles, unm (readOrEmpty rd f) = none) ∧
    (∀ f : String, rd f = none → parseSigFile rd unm f = unm "") ∧
    (∀ t : SigTable, loadSigFiles rd unm sigFiles [] = some t →
      ∀ f ∈ sigFiles, tableGet? t f = unm (readOrEmpty rd f)) ∧
    (∀ (fs : FsOracle) (cfg : Config) (filesToParse : List String),
      resolveCorpus fs cfg.pathsWithSigFiles = some filesToParse →
      (∃ f ∈ findSigFiles filesToParse, unm (readOrEmpty rd f) = none) →
      main fs rd unm cfg = ⟨[], 0, [], Exit.fatal⟩) := by
  refine ⟨loadSigFiles_none_iff rd unm sigFiles [], ?_, ?_, ?_⟩
  · intro f hf
    cases hu : unm "" <;> simp [parseSigFile, readOrEmpty, hf, hu]
  · intro t ht f hf
    rw [loadSigFiles_get rd unm sigFiles [] t ht f]
    simp [hf]
  · intro fs cfg filesToParse hres hbad
    have hl := (loadSigFiles_none_iff rd unm (findSigFiles filesToParse) []).2 hbad
    unfold main
    simp only [hres, hl]
    split_ifs <;> rfl

theorem load_abort_iff_unmarshal_fails_witness :
    loadSigFiles demoRead demoUnmarshal ["rules/ok.yml", "rules/bad.yml"] [] = none ∧
    resolveCorpus demoFs "rules/ok.yml,rules/bad.yml" = some ["rules/ok.yml", "rules/bad.yml"] ∧
    demoUnmarshal (readOrEmpty demoRead "rules/ok.yml") ≠ none ∧
    demoUnmarshal (readOrEmpty demoRead "rules/bad.yml") = none ∧
    main demoFs demoRead demoUnmarshal ⟨"rules/ok.yml,rules/bad.yml", 20, "grep", "", "src"⟩ =
      ⟨[], 0, [], Exit.fatal⟩ ∧
    demoRead "sigs/b.yml" = none ∧
    parseSigFile demoRead demoUnmarshal "sigs/b.yml" = demoUnmarshal "" :=
  ⟨(load_abort_iff_unmarshal_fails demoRead demoUnmarshal ["rules/ok.yml", "rules/bad.yml"]).1.2
      ⟨"rules/bad.yml", by decide, by decide⟩,
    by decide, by decide, by decide,
    (load_abort_iff_unmarshal_fails demoRead demoUnmarshal
        ["rules/ok.yml", "rules/bad.yml"]).2.2.2 demoFs
      ⟨"rules/ok.yml,rules/bad.yml", 20, "grep", "", "src"⟩ ["rules/ok.yml", "rules/bad.yml"]
      (by decide) ⟨"rules/bad.yml", by decide, by decide⟩,
    by decide,
    (load_abort_iff_unmarshal_fails demoRead demoUnmarshal
        ["rules/ok.yml", "rules/bad.yml"]).2.1 "sigs/b.yml" (by decide)⟩

/-- A run over the directory `sigs` alone finishes: the unreadable `sigs/b.yml` is stored as
the decoder's result for empty content. -/
theorem main_unreadable_file_continues :
    main demoFs demoRead demoUnmarshal ⟨"sigs/a.yml,sigs/b.yml", 20, "grep", "", "src"⟩ =
      ⟨[("sigs/a.yml", ⟨"a", "", "", "", []⟩), ("sigs/b.yml", ⟨"", "", "", "", []⟩)], 20,
        ["sigs/a.yml", "sigs/b.yml"], Exit.finished⟩ := by
  decide

/-! ## The glob branch of the resolver -/

/-- C1: two overlapping glob specifiers, and a literal file followed by a glob that matches it,
each leave the same path twice in the resolved corpus list. -/
theorem resolveCorpus_glob_repeats_path :
    resolveCorpus demoFs "sigs/*.yml,sigs/a*" =
        some ["sigs/a.yml", "sigs/b.yml", "sigs/a.yml", "sigs/a.yml.bak", "sigs/archive"] ∧
    resolveCorpus demoFs "sigs/a.yml,sigs/*.yml" =
        some ["sigs/a.yml", "sigs/a.yml", "sigs/b.yml"] ∧
    ¬ ["sigs/a.yml", "sigs/a.yml", "sigs/b.yml"].Nodup := by
  decide

/-- C8: a directory matched by a glob specifier is an entry of the resolved corpus list. -/
theorem resolveCorpus_glob_keeps_directory :
    resolveCorpus demoFs "sigs/a*" =
        some ["sigs/a.yml", "sigs/a.yml.bak", "sigs/archive"] ∧
    demoFs.stat "sigs/archive" = some FileKind.dir := by
  decide

/-- C9: with the specifier list `sigs/*.yml,sigs/*.yml` the signature table has the two keys
`sigs/a.yml` and `sigs/b.yml`, and each of them is sent on the work queue twice. -/
theorem main_sends_key_twice :
    (main demoFs demoRead demoUnmarshal ⟨"sigs/*.yml,sigs/*.yml", 20, "grep", "", "src"⟩).sent =
        ["sigs/a.yml", "sigs/b.yml", "sigs/a.yml", "sigs/b.yml"] ∧
    tableKeys (main demoFs demoRead demoUnmarshal
        ⟨"sigs/*.yml,sigs/*.yml", 20, "grep", "", "src"⟩).table = ["sigs/a.yml", "sigs/b.yml"] ∧
    (main demoFs demoRead demoUnmarshal ⟨"sigs/*.yml,sigs/*.yml", 20, "grep", "", "src"⟩).exit =
        Exit.finished := by
  decide

/-! ## The resolver branches without glob -/

theorem findFrom_snd (val : String) (slice : List String) (i : Nat) :
    (findFrom val slice i).2 = true ↔ val ∈ slice := by
  induction slice generalizing i with
  | nil => simp [findFrom]
  | cons item rest ih =>
    by_cases h : item = val
    · simp [findFrom, h]
    · simp [findFrom, h, ih, Ne.symm h]

theorem Find_snd (slice : List String) (val : String) :
    (Find slice val).2 = true ↔ val ∈ slice :=
  findFrom_snd val slice 0

theorem walkVisit_clean (fs : FsOracle) (acc r : List String) (path : String)
    (hacc : CleanCorpus fs acc) (h : walkVisit fs acc path = some r) : CleanCorpus fs r := by
  unfold walkVisit at h
  cases hs : fs.stat path with
  | none => simp [hs] at h
  | some k =>
    simp only [hs] at h
    by_cases hk : k = FileKind.regular
    · by_cases hf : (Find acc path).2 = true
      · simp [hk, hf] at h
        subst h
        exact hacc
      · simp [hk, hf] at h
        subst h
        have hnot : path ∉ acc := fun hm => hf ((Find_snd acc path).2 hm)
        refine ⟨List.Nodup.append hacc.1 (List.nodup_singleton path) ?_, ?_⟩
        · simpa using hnot
        · intro x hx
          rcases List.mem_append.1 hx with hx | hx
          · exact hacc.2 x hx
          · have hxp : x = path := by simpa using hx
            rw [hxp, hs, hk]
    · simp [hk] at h
      subst h
      exact hacc

theorem walkLoop_clean (fs : FsOracle) (paths acc r : List String)
    (hacc : CleanCorpus fs acc) (h : walkLoop fs paths acc = some r) : CleanCorpus fs r := by
  induction paths generalizing acc with
  | nil =>
    simp [walkLoop] at h
    subst h
    exact hacc
  | cons path rest ih =>
    cases hv : walkVisit fs acc path with
    | none => simp [walkLoop, hv] at h
    | some acc1 =>
      simp only [walkLoop, hv] at h
      exact ih acc1 (walkVisit_clean fs acc acc1 path hacc hv) h

theorem resolveStep_clean (fs : FsOracle) (acc r : List String) (pathToCheck : String)
    (hglob : stringsIndex pathToCheck "*" < 0) (hacc : CleanCorpus fs acc)
    (h : resolveStep fs acc pathToCheck = some r) : CleanCorpus fs r := by
  unfold resolveStep at h
  have hng : ¬ stringsIndex pathToCheck "*" ≥ 0 := not_le.2 hglob
  simp only [hng, if_false] at h
  cases hs : fs.stat pathToCheck with
  | none => simp [hs] at h
  | some k =>
    cases k with
    | dir =>
      simp only [hs] at h
      exact walkLoop_clean fs _ acc r hacc h
    | regular =>
      simp only [hs] at h
      by_cases hf : (Find acc pathToCheck).2 = true
      · simp [hf] at h
        subst h
        exact hacc
      · simp [hf] at h
        subst h
        have hnot : pathToCheck ∉ acc := fun hm => hf ((Find_snd acc pathToCheck).2 hm)
        refine ⟨List.Nodup.append hacc.1 (List.nodup_singleton pathToCheck) ?_, ?_⟩
        · simpa using hnot
        · intro x hx
          rcases List.mem_append.1 hx with hx | hx
          · exact hacc.2 x hx
          · have hxp : x = pathToCheck := by simpa using hx
            rw [hxp, hs]
    | other =>
      simp only [hs] at h
      simp at h
      subst h
      exact hacc

theorem resolveLoop_clean (fs : FsOracle) (paths acc r : List String)
    (hglob : ∀ p ∈ paths, stringsIndex p "*" < 0) (hacc : CleanCorpus fs acc)
    (h : resolveLoop fs paths acc = some r) : CleanCorpus fs r := by
  induction paths generalizing acc with
  | nil =>
    simp [resolveLoop] at h
    subst h
    exact hacc
  | cons p rest ih =>
    cases hv : resolveStep fs acc p with
    | none => simp [resolveLoop, hv] at h
    | some acc1 =>
      simp only [resolveLoop, hv] at h
      exact ih acc1 (fun q hq => hglob q (List.mem_cons_of_mem p hq))
        (resolveStep_clean fs acc acc1 p (hglob p (List.mem_cons_self p rest)) hacc hv) h

/-- When no specifier holds a `*`, the resolved corpus list has no path twice and holds
regular files only: the literal-file and directory branches do both checks. -/
theorem resolveCorpus_clean_without_glob (fs : FsOracle) (pathsWithSigFiles : String)
    (r : List String)
    (hglob : ∀ p ∈ stringsSplitComma pathsWithSigFiles, stringsIndex p "*" < 0)
    (h : resolveCorpus fs pathsWithSigFiles = some r) :
    r.Nodup ∧ ∀ path ∈ r, fs.stat path = some FileKind.regular :=
  resolveLoop_clean fs _ [] r hglob ⟨List.nodup_nil, by simp⟩ h

/-! ## Extension filter -/

/-- C6: `findSigFiles` returns the path `sigs/a.yml.bak`, which ends with neither `.yml` nor
`.yaml`. -/
theorem findSigFiles_keeps_inner_extension :
    findSigFiles ["sigs/a.yml.bak", "sigs/b.txt"] = ["sigs/a.yml.bak"] ∧
    ∀ ext ∈ SIGFILEEXT, stringsHasSuffix "sigs/a.yml.bak" ext = false := by
  decide

theorem indexFrom_ne_iff (sub s : List Char) (i : Nat) :
    indexFrom sub s i ≠ -1 ↔ sub <:+: s := by
  induction s generalizing i with
  | nil =>
    cases sub with
    | nil =>
      simp only [indexFrom, List.isPrefixOf, if_true]
      constructor
      · intro _
        exact List.infix_refl []
      · intro _
        omega
    | cons a l => simp [indexFrom, List.isPrefixOf]
  | cons c cs ih =>
    by_cases hp : sub.isPrefixOf (c :: cs) = true
    · simp only [indexFrom, hp, if_true]
      constructor
      · intro _
        exact (List.isPrefixOf_iff_prefix.1 hp).isInfix
      · intro _
        omega
    · simp only [indexFrom, hp]
      rw [List.infix_cons_iff]
      have hnp : ¬ sub <+: c :: cs := fun hh => hp (List.isPrefixOf_iff_prefix.2 hh)
      simp only [Bool.false_eq_true, if_false]
      rw [ih]
      constructor
      · intro hh
        exact Or.inr hh
      · intro hh
        rcases hh with hh | hh
        · exact absurd hh hnp
        · exact hh

theorem matchesSigExt_iff (fileToCheck : String) :
    matchesSigExt fileToCheck SIGFILEEXT = true ↔
      ".yml".data <:+: fileToCheck.data ∨ ".yaml".data <:+: fileToCheck.data := by
  simp only [SIGFILEEXT, matchesSigExt, stringsIndex]
  by_cases h1 : indexFrom ".yml".data fileToCheck.data 0 ≠ -1
  · have h1i := (indexFrom_ne_iff _ _ 0).1 h1
    simp [h1, h1i]
  · have h1i : ¬ ".yml".data <:+: fileToCheck.data := fun hh => h1 ((indexFrom_ne_iff _ _ 0).2 hh)
    by_cases h2 : indexFrom ".yaml".data fileToCheck.data 0 ≠ -1
    · have h2i := (indexFrom_ne_iff _ _ 0).1 h2
      simp [h1, h2, h2i]
    · have h2i : ¬ ".yaml".data <:+: fileToCheck.data :=
        fun hh => h2 ((indexFrom_ne_iff _ _ 0).2 hh)
      simp [h1, h2, h1i, h2i]

theorem findSigFilesLoop_eq (l acc : List String) :
    findSigFilesLoop l acc = acc ++ l.filter (fun f => matchesSigExt f SIGFILEEXT) := by
  induction l generalizing acc with
  | nil => simp [findSigFilesLoop]
  | cons f rest ih =>
    by_cases h : matchesSigExt f SIGFILEEXT = true
    · simp [findSigFilesLoop, h, ih]
    · simp [findSigFilesLoop, h, ih]

/-- What `findSigFiles` computes: the entries in which `.yml` or `.yaml` occurs anywhere, in
input order. -/
theorem findSigFiles_eq_filter (filesToParse : List String) :
    findSigFiles filesToParse =
      filesToParse.filter (fun f => matchesSigExt f SIGFILEEXT) := by
  simp [findSigFiles, findSigFilesLoop_eq]

/-! ## Producer -/

theorem mem_tableKeys_iff (t : SigTable) (k : String) :
    k ∈ tableKeys t ↔ tableGet? t k ≠ none := by
  induction t with
  | nil => simp [tableKeys, tableGet?]
  | cons e rest ih =>
    obtain ⟨k0, v0⟩ := e
    by_cases h : k0 = k
    · simp [tableKeys, tableGet?, h]
    · have ih1 : k ∈ List.map Prod.fst rest ↔ tableGet? rest k ≠ none := ih
      simp only [tableKeys, List.map_cons, List.mem_cons, tableGet?, h, if_false]
      rw [ih1]
      constructor
      · intro hh
        rcases hh with hh | hh
        · exact absurd hh.symm h
        · exact hh
      · intro hh
        exact Or.inr hh

theorem tableKeys_tableSet_nodup (t : SigTable) (k : String) (v : signFileStruct)
    (h : (tableKeys t).Nodup) : (tableKeys (tableSet t k v)).Nodup := by
  induction t with
  | nil => simp [tableSet, tableKeys]
  | cons e rest ih =>
    obtain ⟨k0, v0⟩ := e
    have hcons : k0 ∉ tableKeys rest ∧ (tableKeys rest).Nodup := by
      simpa [tableKeys] using h
    by_cases h0 : k0 = k
    · subst h0
      simpa [tableSet, tableKeys] using h
    · have hrest := ih hcons.2
      have hnot : k0 ∉ tableKeys (tableSet rest k v) := by
        rw [mem_tableKeys_iff, tableGet?_tableSet]
        simp only [Ne.symm h0, if_false]
        rw [← mem_tableKeys_iff]
        exact hcons.1
      have : tableKeys (tableSet ((k0, v0) :: rest) k v) = k0 :: tableKeys (tableSet rest k v) := by
        simp [tableSet, h0, tableKeys]
      rw [this]
      exact List.nodup_cons.2 ⟨hnot, hrest⟩

theorem loadSigFiles_keys_nodup (rd : String → Option String)
    (unm : String → Option signFileStruct) (sigFiles : List String) (t0 t : SigTable)
    (h0 : (tableKeys t0).Nodup) (h : loadSigFiles rd unm sigFiles t0 = some t) :
    (tableKeys t).Nodup := by
  induction sigFiles generalizing t0 with
  | nil =>
    simp [loadSigFiles] at h
    subst h
    exact h0
  | cons f rest ih =>
    cases hu : unm (readOrEmpty rd f) with
    | none => simp [loadSigFiles, parseSigFile, hu] at h
    | some c =>
      simp only [loadSigFiles, parseSigFile, hu] at h
      exact ih _ (tableKeys_tableSet_nodup t0 f c h0) h

theorem loadSigFiles_keys (rd : String → Option String)
    (unm : String → Option signFileStruct) (sigFiles : List String) (t : SigTable)
    (h : loadSigFiles rd unm sigFiles [] = some t) (k : String) :
    k ∈ tableKeys t ↔ k ∈ sigFiles := by
  rw [mem_tableKeys_iff, loadSigFiles_get rd unm sigFiles [] t h k]
  by_cases hk : k ∈ sigFiles
  · simp only [hk, if_true, iff_true]
    intro hn
    have := (loadSigFiles_none_iff rd unm sigFiles []).2 ⟨k, hk, hn⟩
    rw [h] at this
    exact Option.noConfusion this
  · simp [hk, tableGet?]

/-- When the resolved corpus list has no path twice and the run finishes, the identifiers
sent on the work queue are exactly the keys of the signature table, each sent once. -/
theorem main_sends_each_key_once (fs : FsOracle) (rd : String → Option String)
    (unm : String → Option signFileStruct) (cfg : Config) (filesToParse : List String)
    (hres : resolveCorpus fs cfg.pathsWithSigFiles = some filesToParse)
    (hnd : filesToParse.Nodup)
    (hfin : (main fs rd unm cfg).exit = Exit.finished) :
    (main fs rd unm cfg).sent.Nodup ∧
    (tableKeys (main fs rd unm cfg).table).Nodup ∧
    ∀ k : String, k ∈ (main fs rd unm cfg).sent ↔ k ∈ tableKeys (main fs rd unm cfg).table := by
  unfold main at hfin ⊢
  by_cases h1 : cfg.folderToScan = ""
  · simp [h1] at hfin
  by_cases h2 : fs.stat cfg.folderToScan = none
  · simp [h1, h2] at hfin
  by_cases h3 : cfg.pathsWithSigFiles = ""
  · simp [h1, h2, h3] at hfin
  simp only [h1, h2, h3, if_false, hres] at hfin ⊢
  cases hl : loadSigFiles rd unm (findSigFiles filesToParse) [] with
  | none => simp [hl] at hfin
  | some t =>
    simp only [hl] at hfin ⊢
    by_cases hw : cfg.maxThreads.toNat = 0 ∧ findSigFiles filesToParse ≠ []
    · simp [hw] at hfin
    · simp only [hw, if_false]
      refine ⟨?_, ?_, ?_⟩
      · rw [findSigFiles_eq_filter]
        exact hnd.filter _
      · exact loadSigFiles_keys_nodup rd unm _ [] t (by simp [tableKeys]) hl
      · intro k
        exact (loadSigFiles_keys rd unm _ t hl k).symm

/-! ## Command string -/

/-- C7: for the pattern `{folderToScan}` the command searches for the target path instead
of the pattern. -/
theorem grepCommand_rewrites_pattern :
    grepCommand "grep" "src" "\x7bfolderToScan\x7d" [] =
        "grep --color=always -E -i -r -n -A 2 -B 2 \"src\" \"src\"" ∧
    claimedCommand "grep" "\x7bfolderToScan\x7d" "src" [] =
        "grep --color=always -E -i -r -n -A 2 -B 2 \"\x7bfolderToScan\x7d\" \"src\"" ∧
    grepCommand "grep" "src" "\x7bfolderToScan\x7d" [] ≠
      claimedCommand "grep" "\x7bfolderToScan\x7d" "src" [] := by
  decide

theorem replaceScan_skip (old new u t : List Char) :
    replaceScan old new u.length (u ++ t) = replaceScan old new 0 t := by
  induction u with
  | nil => simp
  | cons a u ih => simpa [replaceScan] using ih

theorem replaceScan_zero_cons (old new : List Char) (c : Char) (cs : List Char) :
    replaceScan old new 0 (c :: cs) =
      if old.isPrefixOf (c :: cs) then new ++ replaceScan old new (old.length - 1) cs
      else c :: replaceScan old new 0 cs := by
  rw [replaceScan]

theorem replaceScan_hit (old new t : List Char) (h : old ≠ []) :
    replaceScan old new 0 (old ++ t) = new ++ replaceScan old new 0 t := by
  cases old with
  | nil => exact absurd rfl h
  | cons c o =>
    have hp : (c :: o).isPrefixOf (c :: (o ++ t)) = true :=
      List.isPrefixOf_iff_prefix.2 (List.prefix_append (c :: o) t)
    have hlen : (c :: o).length - 1 = o.length := by simp
    rw [List.cons_append, replaceScan_zero_cons, if_pos hp, hlen, replaceScan_skip]

theorem replaceScan_pass (old new s t : List Char) (h : OccFree old s t) :
    replaceScan old new 0 (s ++ t) = s ++ replaceScan old new 0 t := by
  induction s with
  | nil => simp
  | cons c s ih =>
    have hnp : ¬ (old.isPrefixOf (c :: (s ++ t)) = true) := fun hh =>
      h [] (c :: s) rfl (List.cons_ne_nil c s) (List.isPrefixOf_iff_prefix.1 hh)
    have hs : OccFree old s t := fun u v huv hv =>
      h (c :: u) v (by rw [huv, List.cons_append]) hv
    rw [List.cons_append, replaceScan_zero_cons, if_neg hnp, ih hs, List.cons_append]

theorem occFree_of_head (old s t : List Char) (d : Char) (ht : t.head? = some d)
    (hi : ¬ old <:+: s) (hd : d ∉ old) : OccFree old s t := by
  cases t with
  | nil => simp at ht
  | cons d1 t =>
  have hd1 : d1 = d := by simpa using ht
  subst hd1
  intro u v hs hv hp
  by_cases hlen : old.length ≤ v.length
  · have hov : old <+: v :=
      List.prefix_of_prefix_length_le hp (List.prefix_append v (d1 :: t)) hlen
    obtain ⟨w, hw⟩ := hov
    exact hi ⟨u, w, by rw [hs, ← hw, List.append_assoc]⟩
  · have hvd : v ++ [d1] <+: v ++ d1 :: t := ⟨t, by simp⟩
    have hsub : v ++ [d1] <+: old :=
      List.prefix_of_prefix_length_le hvd hp (by simp; omega)
    exact hd (hsub.subset (by simp))

theorem occFree_of_last (old s t : List Char) (d : Char) (hl : s.getLast? = some d)
    (hi : ¬ old <:+: s) (hd : d ∉ old) : OccFree old s t := by
  intro u v hs hv hp
  have hdv : d ∈ v := by
    have h1 : (u ++ v).getLast? = some d := by rw [← hs]; exact hl
    rw [List.getLast?_append] at h1
    cases hv1 : v.getLast? with
    | none =>
      rw [List.getLast?_eq_none_iff] at hv1
      exact absurd hv1 hv
    | some b =>
      rw [hv1] at h1
      simp at h1
      subst h1
      exact List.mem_of_mem_getLast? hv1
  by_cases hlen : old.length ≤ v.length
  · have hov : old <+: v :=
      List.prefix_of_prefix_length_le hp (List.prefix_append v t) hlen
    obtain ⟨w, hw⟩ := hov
    exact hi ⟨u, w, by rw [hs, ← hw, List.append_assoc]⟩
  · have hsub : v <+: old :=
      List.prefix_of_prefix_length_le (List.prefix_append v t) hp (by omega)
    exact hd (hsub.subset hdv)

theorem replaceScan_none (old new s : List Char) (hi : ¬ old <:+: s) :
    replaceScan old new 0 s = s := by
  have h : OccFree old s [] := by
    intro u v hs _ hp
    rw [List.append_nil] at hp
    obtain ⟨w, hw⟩ := hp
    exact hi ⟨u, w, by rw [hs, ← hw, List.append_assoc]⟩
  have := replaceScan_pass old new s [] h
  simpa [replaceScan] using this

theorem stringsReplaceAll_data (s old new : String) (h : old.data ≠ []) :
    (stringsReplaceAll s old new).data = replaceScan old.data new.data 0 s.data := by
  simp [stringsReplaceAll, h]

/-- Scanning moves past a value in which `old` does not occur, when the text after it starts
with a character that is not in `old`. -/
theorem pass_value (old new s t : List Char) (d : Char) (ht : t.head? = some d)
    (hd : d ∉ old) (hi : ¬ old <:+: s) :
    replaceScan old new 0 (s ++ t) = s ++ replaceScan old new 0 t :=
  replaceScan_pass old new s t (occFree_of_head old s t d ht hi hd)

/-- Scanning moves past a text in which `old` does not occur, when the text ends with a
character that is not in `old`. -/
theorem pass_text (old new s t : List Char) (d : Char) (hl : s.getLast? = some d)
    (hd : d ∉ old) (hi : ¬ old <:+: s) :
    replaceScan old new 0 (s ++ t) = s ++ replaceScan old new 0 t :=
  replaceScan_pass old new s t (occFree_of_last old s t d hl hi hd)

set_option maxRecDepth 8192 in
theorem grepTemplate_data :
    grepTemplate.data = tG ++ (kFlags ++ (tR ++ (kMid ++ (tF ++ kClose)))) := by
  decide

set_option maxRecDepth 8192 in
theorem subst_grepBin (g : List Char) :
    replaceScan tG g 0 grepTemplate.data =
      g ++ (kFlags ++ (tR ++ (kMid ++ (tF ++ kClose)))) := by
  rw [grepTemplate_data, replaceScan_hit tG g _ (by decide),
    replaceScan_none tG g _ (by decide)]

set_option maxRecDepth 8192 in
theorem subst_regex (g r : List Char) (hg : ¬ tR <:+: g) :
    replaceScan tR r 0 (g ++ (kFlags ++ (tR ++ (kMid ++ (tF ++ kClose))))) =
      g ++ (kFlags ++ (r ++ (kMid ++ (tF ++ kClose)))) := by
  rw [pass_value tR r g (kFlags ++ _) ' ' rfl (by decide) hg,
    pass_text tR r kFlags _ '"' (by decide) (by decide) (by decide),
    replaceScan_hit tR r _ (by decide), replaceScan_none tR r _ (by decide)]

set_option maxRecDepth 8192 in
theorem subst_folder (g r f : List Char) (hg : ¬ tF <:+: g) (hr : ¬ tF <:+: r) :
    replaceScan tF f 0 (g ++ (kFlags ++ (r ++ (kMid ++ (tF ++ kClose))))) =
      g ++ (kFlags ++ (r ++ (kMid ++ (f ++ kClose)))) := by
  rw [pass_value tF f g (kFlags ++ _) ' ' rfl (by decide) hg,
    pass_text tF f kFlags _ '"' (by decide) (by decide) (by decide),
    pass_value tF f r (kMid ++ _) '"' rfl (by decide) hr,
    pass_text tF f kMid _ '"' (by decide) (by decide) (by decide),
    replaceScan_hit tF f _ (by decide), replaceScan_none tF f _ (by decide)]

set_option maxRecDepth 8192 in
theorem kFlags_split : kFlags = kHead ++ (tA ++ kBefore) := by
  decide

set_option maxRecDepth 8192 in
theorem subst_after (g r f : List Char) (hg : ¬ tA <:+: g) (hr : ¬ tA <:+: r)
    (hf : ¬ tA <:+: f) :
    replaceScan tA DefLinesAfter.data 0 (g ++ (kFlags ++ (r ++ (kMid ++ (f ++ kClose))))) =
      g ++ (kHead ++ (DefLinesAfter.data ++ (kBefore ++ (r ++ (kMid ++ (f ++ kClose)))))) := by
  rw [kFlags_split, List.append_assoc, List.append_assoc,
    pass_value tA _ g (kHead ++ _) ' ' rfl (by decide) hg,
    pass_text tA _ kHead _ ' ' (by decide) (by decide) (by decide),
    replaceScan_hit tA _ _ (by decide),
    pass_text tA _ kBefore _ '"' (by decide) (by decide) (by decide),
    pass_value tA _ r (kMid ++ _) '"' rfl (by decide) hr,
    pass_text tA _ kMid _ '"' (by decide) (by decide) (by decide),
    pass_value tA _ f kClose '"' rfl (by decide) hf,
    replaceScan_none tA _ _ (by decide)]

set_option maxRecDepth 8192 in
theorem kHead_regroup (y : List Char) :
    kHead ++ (DefLinesAfter.data ++ (kBefore ++ y)) = kHead2 ++ (tB ++ (kOpen ++ y)) := by
  have h : kHead ++ (DefLinesAfter.data ++ kBefore) = kHead2 ++ (tB ++ kOpen) := by decide
  calc kHead ++ (DefLinesAfter.data ++ (kBefore ++ y))
      = (kHead ++ (DefLinesAfter.data ++ kBefore)) ++ y := by simp only [List.append_assoc]
    _ = (kHead2 ++ (tB ++ kOpen)) ++ y := by rw [h]
    _ = kHead2 ++ (tB ++ (kOpen ++ y)) := by simp only [List.append_assoc]

set_option maxRecDepth 8192 in
theorem subst_before (g r f : List Char) (hg : ¬ tB <:+: g) (hr : ¬ tB <:+: r)
    (hf : ¬ tB <:+: f) :
    replaceScan tB DefLinesBefore.data 0
        (g ++ (kHead ++ (DefLinesAfter.data ++ (kBefore ++ (r ++ (kMid ++ (f ++ kClose))))))) =
      g ++ (kHead2 ++ (DefLinesBefore.data ++ (kOpen ++ (r ++ (kMid ++ (f ++ kClose)))))) := by
  rw [kHead_regroup,
    pass_value tB _ g (kHead2 ++ _) ' ' rfl (by decide) hg,
    pass_text tB _ kHead2 _ ' ' (by decide) (by decide) (by decide),
    replaceScan_hit tB _ _ (by decide),
    pass_text tB _ kOpen _ '"' (by decide) (by decide) (by decide),
    pass_value tB _ r (kMid ++ _) '"' rfl (by decide) hr,
    pass_text tB _ kMid _ '"' (by decide) (by decide) (by decide),
    pass_value tB _ f kClose '"' rfl (by decide) hf,
    replaceScan_none tB _ _ (by decide)]

theorem appendExcludes_eq (cmd : String) (excludePatterns : List String) :
    appendExcludes cmd excludePatterns = cmd ++ claimedExcludes excludePatterns := by
  induction excludePatterns generalizing cmd with
  | nil => simp [appendExcludes, claimedExcludes]
  | cons e es ih =>
    by_cases he : e = ""
    · simp [appendExcludes, claimedExcludes, he, ih]
    · simp [appendExcludes, claimedExcludes, he, ih, String.append_assoc]

theorem not_infix_of_index (s sub : String) (h : stringsIndex s sub = -1) :
    ¬ sub.data <:+: s.data := fun hh =>
  (indexFrom_ne_iff sub.data s.data 0).2 hh h

set_option maxRecDepth 8192 in
/-- On inputs in which no placeholder that is still to be substituted occurs, the command
string is the one the specification gives. -/
theorem grepCommand_eq_claimed (grepBin folderToScan regex : String)
    (excludePatterns : List String)
    (hg1 : stringsIndex grepBin "\x7bregex\x7d" = -1)
    (hg2 : stringsIndex grepBin "\x7bfolderToScan\x7d" = -1)
    (hg3 : stringsIndex grepBin "\x7bDefLinesAfter\x7d" = -1)
    (hg4 : stringsIndex grepBin "\x7bDefLinesBefore\x7d" = -1)
    (hr2 : stringsIndex regex "\x7bfolderToScan\x7d" = -1)
    (hr3 : stringsIndex regex "\x7bDefLinesAfter\x7d" = -1)
    (hr4 : stringsIndex regex "\x7bDefLinesBefore\x7d" = -1)
    (hf3 : stringsIndex folderToScan "\x7bDefLinesAfter\x7d" = -1)
    (hf4 : stringsIndex folderToScan "\x7bDefLinesBefore\x7d" = -1) :
    grepCommand grepBin folderToScan regex excludePatterns =
      claimedCommand grepBin regex folderToScan excludePatterns := by
  have e1 : (stringsReplaceAll grepTemplate "\x7bgrepBin\x7d" grepBin).data =
      grepBin.data ++ (kFlags ++ (tR ++ (kMid ++ (tF ++ kClose)))) := by
    rw [stringsReplaceAll_data _ _ _ (by decide)]
    exact subst_grepBin grepBin.data
  have e2 : (stringsReplaceAll (stringsReplaceAll grepTemplate "\x7bgrepBin\x7d" grepBin)
      "\x7bregex\x7d" regex).data =
      grepBin.data ++ (kFlags ++ (regex.data ++ (kMid ++ (tF ++ kClose)))) := by
    rw [stringsReplaceAll_data _ _ _ (by decide), e1]
    exact subst_regex grepBin.data regex.data (not_infix_of_index _ _ hg1)
  have e3 : (stringsReplaceAll (stringsReplaceAll (stringsReplaceAll grepTemplate
      "\x7bgrepBin\x7d" grepBin) "\x7bregex\x7d" regex) "\x7bfolderToScan\x7d" folderToScan).data =
      grepBin.data ++ (kFlags ++ (regex.data ++ (kMid ++ (folderToScan.data ++ kClose)))) := by
    rw [stringsReplaceAll_data _ _ _ (by decide), e2]
    exact subst_folder grepBin.data regex.data folderToScan.data (not_infix_of_index _ _ hg2)
      (not_infix_of_index _ _ hr2)
  have e4 : (stringsReplaceAll (stringsReplaceAll (stringsReplaceAll (stringsReplaceAll
      grepTemplate "\x7bgrepBin\x7d" grepBin) "\x7bregex\x7d" regex) "\x7bfolderToScan\x7d"
      folderToScan) "\x7bDefLinesAfter\x7d" DefLinesAfter).data =
      grepBin.data ++ (kHead ++ (DefLinesAfter.data ++ (kBefore ++ (regex.data ++
        (kMid ++ (folderToScan.data ++ kClose)))))) := by
    rw [stringsReplaceAll_data _ _ _ (by decide), e3]
    exact subst_after grepBin.data regex.data folderToScan.data (not_infix_of_index _ _ hg3)
      (not_infix_of_index _ _ hr3) (not_infix_of_index _ _ hf3)
  have e5 : (stringsReplaceAll (stringsReplaceAll (stringsReplaceAll (stringsReplaceAll
      (stringsReplaceAll grepTemplate "\x7bgrepBin\x7d" grepBin) "\x7bregex\x7d" regex)
      "\x7bfolderToScan\x7d" folderToScan) "\x7bDefLinesAfter\x7d" DefLinesAfter)
      "\x7bDefLinesBefore\x7d" DefLinesBefore).data =
      grepBin.data ++ (kHead2 ++ (DefLinesBefore.data ++ (kOpen ++ (regex.data ++
        (kMid ++ (folderToScan.data ++ kClose)))))) := by
    rw [stringsReplaceAll_data _ _ _ (by decide), e4]
    exact subst_before grepBin.data regex.data folderToScan.data (not_infix_of_index _ _ hg4)
      (not_infix_of_index _ _ hr4) (not_infix_of_index _ _ hf4)
  unfold grepCommand claimedCommand
  rw [appendExcludes_eq]
  congr 1
  apply String.ext
  rw [e5]
  simp only [String.data_append, List.append_assoc]
  rfl

end GoCodeReview
